import Mathlib

/-!
Verification of the spiking-XOR fitness evaluator from
`examples/xor/evolve-spiking.py`: the time-to-first-spike decoder
`compute_output`, the per-trial simulation loop (first-spike capture with its
one-sample look-back), the squared-error accumulation of `simulate`, and the
fitness assignment `1 - error` of `eval_fitness`.

Real-valued quantities of the source are embedded as exact rationals (ℚ).
Python's `IndexError`/`KeyError` paths are embedded with `Except Unit`.
-/

namespace EvolveSpiking

/-- Modelled from the spec: the `neat.iznn` phenotype network (produced by
`neat.iznn.create_phenotype`, which is not part of the example source).  Per
spec section 4.3 the network exposes `reset`, `set_inputs`, a deterministic
`advance dt` reporting, per output neuron in declared order, whether it fired
this step, and read access to every neuron's membrane potential `n.v`.  The
example uses exactly two output neurons (`config.output_nodes = 2`), so
`advance` reports a pair of fired values and `out0`, `out1` are the ids
`net.outputs[0]`, `net.outputs[1]`.  `neuronIds` are the keys of
`net.neurons`.  State is passed explicitly through `σ`. -/
structure SpikingNet (σ : Type) where
  neuronIds : List ℕ
  out0 : ℕ
  out1 : ℕ
  reset : σ → σ
  setInputs : ℕ × ℕ → σ → σ
  advance : ℚ → σ → σ × (ℚ × ℚ)
  potential : σ → ℕ → ℚ

/-- `max_time = 50.0`: maximum simulated time (ms) to wait for an output. -/
def max_time : ℚ := 50

/-- `dt = 0.25`: the simulation time step (ms). -/
def dt : ℚ := 1/4

/-- `num_steps = int(max_time / dt)`: Python `int` truncation of a
non-negative value is the floor. -/
def num_steps : ℕ := (max_time / dt).floor.toNat

/-- `xor_inputs`: the four truth-table input pairs. -/
def xor_inputs : List (ℕ × ℕ) := [(0, 0), (0, 1), (1, 0), (1, 1)]

/-- `xor_outputs`: the expected XOR outputs, as the reals they are compared
against. -/
def xor_outputs : List ℚ := [0, 1, 1, 0]

/-- `compute_output(t0, t1)`: decode the response from the two time-to-first-
spike values; `none` embeds Python's `None`.  Source: if either time is
`None` return `-1.0`, else `response = 1.1 - 0.1 * abs(t0 - t1)` clamped by
`max(0.0, min(1.0, response))`. -/
def compute_output (t0 t1 : Option ℚ) : ℚ :=
  match t0, t1 with
  | some a, some b => max 0 (min 1 (11/10 - 1/10 * |a - b|))
  | _, _ => -1

/-- Python `l[-2]`: the second-to-last element, `IndexError` (here `none`)
when the list has fewer than two elements. -/
def pyGetNeg2 {α : Type} (l : List α) : Option α := l.reverse[1]?

/-- Python dict lookup `d[i]` on the `neuron_data` association list:
`KeyError` becomes `none`. -/
def dictGet {α : Type} (d : List (ℕ × α)) (i : ℕ) : Option α :=
  (d.find? (fun p => p.1 == i)).map Prod.snd

/-- The mutable state of one trial of the `simulate` loop: the network state,
the `neuron_data` dict (one `(t, v)` trace per neuron id, in `net.neurons`
order), and the recorded first-spike pairs `(t0, v0)` and `(t1, v1)`
(`none` while the neuron has not fired). -/
structure TrialState (σ : Type) where
  net : σ
  data : List (ℕ × List (ℚ × ℚ))
  rec0 : Option (ℚ × ℚ)
  rec1 : Option (ℚ × ℚ)
deriving DecidableEq

/-- The result of the `[-2]` indexing: a sample on success, `IndexError`
(here `.error ()`) when the trace has fewer than two samples. -/
def capResult : Option (ℚ × ℚ) → Except Unit (Option (ℚ × ℚ))
  | some q => .ok (some q)
  | none => .error ()

/-- `neuron_data[net.outputs[K]][-2]`: `KeyError` when the output id is not a
key of the dict, otherwise the `[-2]` lookup on its trace. -/
def traceLookback : Option (List (ℚ × ℚ)) → Except Unit (Option (ℚ × ℚ))
  | some l => capResult (pyGetNeg2 l)
  | none => .error ()

/-- One `if tK is None and output[K] > 0: tK, vK = neuron_data[net.outputs[K]][-2]`
statement: when the guard holds, look up the output neuron's trace and take
its second-to-last sample; otherwise keep the recorded pair. -/
def spikeCapture (data : List (ℕ × List (ℚ × ℚ))) (oid : ℕ)
    (rec : Option (ℚ × ℚ)) (fired : ℚ) : Except Unit (Option (ℚ × ℚ)) :=
  if rec = none ∧ 0 < fired then traceLookback (dictGet data oid)
  else .ok rec

/-- The `neuron_data` traces after the append loop of step `j`: each neuron's
trace is extended with `(t, n.v)`, where `t = dt * j` and `n.v` is read from
the network state after this step's `advance`. -/
def stepData {σ : Type} (N : SpikingNet σ) (j : ℕ) (st : TrialState σ) :
    List (ℕ × List (ℚ × ℚ)) :=
  st.data.map (fun p =>
    (p.1, p.2 ++ [(dt * (j : ℚ), N.potential (N.advance dt st.net).1 p.1)]))

/-- One iteration of the `for j in range(num_steps)` loop at step index `j`:
advance the network by `dt`, append `(t, n.v)` to every neuron's trace, then
run the two first-spike capture statements in order. -/
def trialStep {σ : Type} (N : SpikingNet σ) (j : ℕ) (st : TrialState σ) :
    Except Unit (TrialState σ) :=
  match spikeCapture (stepData N j st) N.out0 st.rec0 (N.advance dt st.net).2.1 with
  | .error e => .error e
  | .ok r0 =>
    match spikeCapture (stepData N j st) N.out1 st.rec1 (N.advance dt st.net).2.2 with
    | .error e => .error e
    | .ok r1 => .ok ⟨(N.advance dt st.net).1, stepData N j st, r0, r1⟩

/-- Run the first `k` iterations of the step loop (step indices `0 … k-1`),
an exception aborting the remainder. -/
def runSteps {σ : Type} (N : SpikingNet σ) (st0 : TrialState σ) :
    ℕ → Except Unit (TrialState σ)
  | 0 => .ok st0
  | k + 1 =>
    match runSteps N st0 k with
    | .ok st => trialStep N k st
    | .error e => .error e

/-- The network state at the start of a trial: `net.reset()` followed by
`net.set_inputs(inputData)`. -/
def initNet {σ : Type} (N : SpikingNet σ) (inp : ℕ × ℕ) (s : σ) : σ :=
  N.setInputs inp (N.reset s)

/-- The trial state before the step loop: reset and forced network, the
`neuron_data` dict holding an empty trace for each neuron id, and
`t0 = t1 = v0 = v1 = None`. -/
def initTrial {σ : Type} (N : SpikingNet σ) (inp : ℕ × ℕ) (s : σ) :
    TrialState σ :=
  ⟨initNet N inp s, N.neuronIds.map (fun i => (i, [])), none, none⟩

/-- One full trial: the step loop run `num_steps` times from the initial
trial state. -/
def runTrial {σ : Type} (N : SpikingNet σ) (inp : ℕ × ℕ) (s : σ) :
    Except Unit (TrialState σ) :=
  runSteps N (initTrial N inp s) num_steps

/-- One entry of the `simulated` list returned by `simulate`:
`(inputData, outputData, t0, t1, v0, v1, neuron_data)`. -/
structure TrialResult where
  inputData : ℕ × ℕ
  outputData : ℚ
  t0 : Option ℚ
  t1 : Option ℚ
  v0 : Option ℚ
  v1 : Option ℚ
  neuron_data : List (ℕ × List (ℚ × ℚ))
deriving DecidableEq

/-- The trial loop of `simulate` over the remaining `(inputData, outputData)`
pairs, threading the accumulated `sum_square_error` and the network state
(the same network object is reused across trials, reset at each trial's
start). -/
def simulateFrom {σ : Type} (N : SpikingNet σ) (acc : ℚ) (s : σ) :
    List ((ℕ × ℕ) × ℚ) → Except Unit (ℚ × List TrialResult)
  | [] => .ok (acc, [])
  | (inp, expected) :: rest =>
    match runTrial N inp s with
    | .error e => .error e
    | .ok st =>
      let t0 := st.rec0.map Prod.fst
      let v0 := st.rec0.map Prod.snd
      let t1 := st.rec1.map Prod.fst
      let v1 := st.rec1.map Prod.snd
      let response := compute_output t0 t1
      match simulateFrom N (acc + (response - expected) ^ 2) st.net rest with
      | .error e => .error e
      | .ok (e, rs) => .ok (e, ⟨inp, expected, t0, t1, v0, v1, st.data⟩ :: rs)

/-- `simulate(genome)`: evaluate the network over the four XOR trials,
returning `(sum_square_error, simulated)`. -/
def simulate {σ : Type} (N : SpikingNet σ) (s : σ) :
    Except Unit (ℚ × List TrialResult) :=
  simulateFrom N 0 s (xor_inputs.zip xor_outputs)

/-- `eval_fitness`: the fitness assigned to one genome,
`genome.fitness = 1 - sum_square_error`. -/
def eval_fitness {σ : Type} (N : SpikingNet σ) (s : σ) : Except Unit ℚ :=
  match simulate N s with
  | .ok (e, _) => .ok (1 - e)
  | .error e => .error e

/-- The network state after `k` calls of `net.advance(dt)` from state `s`. -/
def netIter {σ : Type} (N : SpikingNet σ) (s : σ) : ℕ → σ
  | 0 => s
  | k + 1 => (N.advance dt (netIter N s k)).1

/-- The clamp the spec describes: `clamp(x, lo, hi)`. -/
def clamp (lo hi x : ℚ) : ℚ := max lo (min hi x)

/-- `int(50.0 / 0.25)` evaluates to 200 steps. -/
theorem num_steps_eq : num_steps = 200 := by
  have h : max_time / dt = 200 := by norm_num [max_time, dt]
  rw [num_steps, h]
  rfl

/-- C1: for non-`None` spike times the decoded response is
`clamp(1.1 - 0.1*|t0 - t1|, 0, 1)`; in particular a gap of `0` gives `1.0`,
a gap of at least `11.0` gives `0.0`, and a gap of `5.0` gives `0.6`. -/
theorem compute_output_clamp (a b : ℚ) :
    compute_output (some a) (some b) = clamp 0 1 (11/10 - 1/10 * |a - b|) ∧
    (|a - b| = 0 → compute_output (some a) (some b) = 1) ∧
    (11 ≤ |a - b| → compute_output (some a) (some b) = 0) ∧
    (|a - b| = 5 → compute_output (some a) (some b) = 3/5) := by
  refine ⟨rfl, fun h => ?_, fun h => ?_, fun h => ?_⟩
  · simp only [compute_output, h]
    norm_num
  · simp only [compute_output]
    have h1 : 11/10 - 1/10 * |a - b| ≤ 0 := by linarith
    have h2 : min 1 (11/10 - 1/10 * |a - b|) ≤ 0 :=
      le_trans (min_le_right _ _) h1
    exact max_eq_left h2
  · simp only [compute_output, h]
    norm_num

/-- C1 witness: the boundary values at concrete inputs `(t0, t1)` equal to
`(3, 3)`, `(16, 5)` and `(7, 2)`. -/
theorem compute_output_clamp_witness :
    compute_output (some 3) (some 3) = 1 ∧
    compute_output (some 16) (some 5) = 0 ∧
    compute_output (some 7) (some 2) = 3/5 :=
  ⟨(compute_output_clamp 3 3).2.1 (by norm_num),
   (compute_output_clamp 16 5).2.2.1 (by norm_num),
   (compute_output_clamp 7 2).2.2.2 (by norm_num)⟩

/-- C2: if either first-spike time is missing (`None`), the response is
exactly `-1.0`, whatever the other argument is. -/
theorem compute_output_none (x : Option ℚ) :
    compute_output none x = -1 ∧ compute_output x none = -1 := by
  constructor
  · rfl
  · cases x <;> rfl

/-- C5: restricted to non-`None` arguments, `compute_output` is
non-increasing in `|t0 - t1|` and always lies in `[0, 1]`. -/
theorem compute_output_monotone (a b a' b' : ℚ)
    (h : |a - b| ≤ |a' - b'|) :
    compute_output (some a') (some b') ≤ compute_output (some a) (some b) ∧
    0 ≤ compute_output (some a) (some b) ∧
    compute_output (some a) (some b) ≤ 1 := by
  refine ⟨?_, le_max_left _ _, ?_⟩
  · simp only [compute_output]
    have : 11/10 - 1/10 * |a' - b'| ≤ 11/10 - 1/10 * |a - b| := by linarith
    exact max_le_max le_rfl (min_le_min le_rfl this)
  · simp only [compute_output]
    have h0 : (0 : ℚ) ≤ 1 := by norm_num
    exact max_le h0 (min_le_left _ _)

/-- C5 witness: monotonicity and bounds applied at the concrete gaps
`|4 - 1| ≤ |9 - 1|`. -/
theorem compute_output_monotone_witness :
    compute_output (some 9) (some 1) ≤ compute_output (some 4) (some 1) ∧
    0 ≤ compute_output (some 4) (some 1) ∧
    compute_output (some 4) (some 1) ≤ 1 :=
  compute_output_monotone 4 1 9 1 (by norm_num)

/-- C9: the response is exactly `1.0` on the whole plateau
`|t0 - t1| ≤ 1`, not only at `t0 = t1`. -/
theorem compute_output_plateau (a b : ℚ) (h : |a - b| ≤ 1) :
    compute_output (some a) (some b) = 1 := by
  simp only [compute_output]
  have habs : (0 : ℚ) ≤ |a - b| := abs_nonneg _
  have h1 : (1 : ℚ) ≤ 11/10 - 1/10 * |a - b| := by linarith
  rw [min_eq_left h1]
  exact max_eq_right (by norm_num)

/-- C9 witness: distinct spike times `t0 = 3`, `t1 = 7/2` (half a
millisecond apart) still decode to exactly `1`. -/
theorem compute_output_plateau_witness :
    compute_output (some 3) (some (7/2)) = 1 :=
  compute_output_plateau 3 (7/2) (by rw [abs_le]; norm_num)

/-- Characterization of a successful loop iteration: both capture statements
succeed and the new state is the advanced network, the extended traces, and
the two capture results. -/
theorem trialStep_ok_iff {σ : Type} (N : SpikingNet σ) (j : ℕ)
    (st st₂ : TrialState σ) :
    trialStep N j st = .ok st₂ ↔
    ∃ r0 r1,
      spikeCapture (stepData N j st) N.out0 st.rec0
        (N.advance dt st.net).2.1 = .ok r0 ∧
      spikeCapture (stepData N j st) N.out1 st.rec1
        (N.advance dt st.net).2.2 = .ok r1 ∧
      st₂ = ⟨(N.advance dt st.net).1, stepData N j st, r0, r1⟩ := by
  constructor
  · intro h
    unfold trialStep at h
    cases hc0 : spikeCapture (stepData N j st) N.out0 st.rec0
        (N.advance dt st.net).2.1 with
    | error e => rw [hc0] at h; simp at h
    | ok r0 =>
      rw [hc0] at h
      cases hc1 : spikeCapture (stepData N j st) N.out1 st.rec1
          (N.advance dt st.net).2.2 with
      | error e => rw [hc1] at h; simp at h
      | ok r1 =>
        rw [hc1] at h
        simp only [Except.ok.injEq] at h
        exact ⟨r0, r1, rfl, rfl, h.symm⟩
  · rintro ⟨r0, r1, h0, h1, rfl⟩
    unfold trialStep
    rw [h0, h1]

/-- A successful loop iteration advances the network once and appends one
`(t, v)` sample to every neuron's trace; the network-state and trace parts do
not depend on the capture branches. -/
theorem trialStep_ok_shape {σ : Type} (N : SpikingNet σ) (j : ℕ)
    (st st₂ : TrialState σ) (h : trialStep N j st = .ok st₂) :
    st₂.net = (N.advance dt st.net).1 ∧ st₂.data = stepData N j st := by
  obtain ⟨r0, r1, h0, h1, rfl⟩ := (trialStep_ok_iff N j st st₂).mp h
  exact ⟨rfl, rfl⟩

/-- Trace invariant: after `k` successful iterations from the initial trial
state, the network has been advanced exactly `k` times and each neuron's
trace lists, in order, the samples `(dt*m, v after the advance of step m)`
for `m = 0 … k-1`. -/
theorem runSteps_ok_trace {σ : Type} (N : SpikingNet σ) (inp : ℕ × ℕ) (s : σ)
    (k : ℕ) : ∀ st : TrialState σ,
    runSteps N (initTrial N inp s) k = .ok st →
    st.net = netIter N (initNet N inp s) k ∧
    st.data = N.neuronIds.map (fun i =>
      (i, (List.range k).map (fun m : ℕ =>
        (dt * (m : ℚ), N.potential (netIter N (initNet N inp s) (m+1)) i)))) := by
  induction k with
  | zero =>
    intro st h
    cases h
    exact ⟨rfl, rfl⟩
  | succ k ih =>
    intro st h
    rw [runSteps] at h
    cases hk : runSteps N (initTrial N inp s) k with
    | error e => rw [hk] at h; cases h
    | ok st1 =>
      rw [hk] at h
      obtain ⟨h1, h2⟩ := trialStep_ok_shape N k st1 st h
      obtain ⟨g1, g2⟩ := ih st1 hk
      constructor
      · rw [h1, g1]; rfl
      · rw [h2]
        unfold stepData
        rw [g2, g1, List.map_map]
        refine congrArg (fun f => List.map f N.neuronIds) ?_
        funext i
        simp [Function.comp, List.range_succ, netIter]

/-- Unfolding one accumulation step of the trial loop of `simulate`:
on success the returned error is the accumulator plus the squared errors of
the produced records, whose input/expected columns are the given trials. -/
theorem simulateFrom_ok_spec {σ : Type} (N : SpikingNet σ) :
    ∀ (trials : List ((ℕ × ℕ) × ℚ)) (acc : ℚ) (s : σ) (e : ℚ)
      (recs : List TrialResult),
      simulateFrom N acc s trials = .ok (e, recs) →
      e = acc + (recs.map
        (fun r => (compute_output r.t0 r.t1 - r.outputData) ^ 2)).sum ∧
      recs.map TrialResult.inputData = trials.map Prod.fst ∧
      recs.map TrialResult.outputData = trials.map Prod.snd := by
  intro trials
  induction trials with
  | nil =>
    intro acc s e recs h
    cases h
    simp
  | cons tr rest ih =>
    intro acc s e recs h
    obtain ⟨inp, expected⟩ := tr
    rw [simulateFrom] at h
    cases ht : runTrial N inp s with
    | error e0 => rw [ht] at h; cases h
    | ok st =>
      rw [ht] at h
      simp only at h
      cases hrec : simulateFrom N
          (acc + (compute_output (st.rec0.map Prod.fst) (st.rec1.map Prod.fst)
            - expected) ^ 2) st.net rest with
      | error e0 => rw [hrec] at h; cases h
      | ok pr =>
        obtain ⟨e1, rs⟩ := pr
        rw [hrec] at h
        simp only at h
        rw [Except.ok.injEq, Prod.mk.injEq] at h
        obtain ⟨he, hr⟩ := h
        subst he
        subst hr
        obtain ⟨q1, q2, q3⟩ := ih _ st.net e1 rs hrec
        refine ⟨?_, by simpa using q2, by simpa using q3⟩
        rw [q1]
        simp only [List.map_cons, List.sum_cons]
        ring

/-- C3: when `simulate` returns, the reported total squared error is the sum
over the four truth-table trials of `(response - expected_output)^2`, and
`eval_fitness` assigns exactly `1 - total_squared_error`, unclamped. -/
theorem simulate_sum_square_error {σ : Type} (N : SpikingNet σ) (s : σ)
    (e : ℚ) (recs : List TrialResult)
    (h : simulate N s = .ok (e, recs)) :
    e = (recs.map
      (fun r => (compute_output r.t0 r.t1 - r.outputData) ^ 2)).sum ∧
    recs.map TrialResult.inputData = xor_inputs ∧
    recs.map TrialResult.outputData = xor_outputs ∧
    eval_fitness N s = .ok (1 - e) := by
  obtain ⟨q1, q2, q3⟩ := simulateFrom_ok_spec N (xor_inputs.zip xor_outputs) 0 s e recs h
  refine ⟨by rw [q1]; ring, ?_, ?_, ?_⟩
  · rw [q2]; rfl
  · rw [q3]; rfl
  · unfold eval_fitness
    rw [h]

/-- C8: `simulate` is deterministic — two runs with identical network and
identical initial state produce identical `(error, records)` results. -/
theorem simulate_deterministic {σ : Type} (N N' : SpikingNet σ) (s s' : σ)
    (h1 : N = N') (h2 : s = s') : simulate N s = simulate N' s' := by
  rw [h1, h2]

/-- Dict lookup on the association list built from a key list. -/
theorem dictGet_map {α : Type} (ids : List ℕ) (g : ℕ → α) (i : ℕ) :
    dictGet (ids.map (fun a => (a, g a))) i =
      if i ∈ ids then some (g i) else none := by
  induction ids with
  | nil => rfl
  | cons a tl ih =>
    simp only [List.map_cons, dictGet, List.mem_cons]
    by_cases hai : a = i
    · subst hai
      rw [List.find?_cons_of_pos _ (by simp)]
      simp
    · rw [List.find?_cons_of_neg _ (by simp [hai])]
      have htl := ih
      simp only [dictGet] at htl
      rw [htl]
      simp [Ne.symm hai]

/-- `l[-2]` on the image of `range (k+2)` picks out `f k`. -/
theorem pyGetNeg2_range_map {α : Type} (f : ℕ → α) (k : ℕ) :
    pyGetNeg2 ((List.range (k+2)).map f) = some (f k) := by
  have h2 : List.range (k+2) = List.range k ++ [k, k+1] := by
    rw [List.range_succ, List.range_succ]
    simp
  rw [pyGetNeg2, h2]
  simp [List.reverse_append]

/-- `l[-2]` on a trace shorter than two samples is an `IndexError`. -/
theorem pyGetNeg2_eq_none {α : Type} (l : List α) (h : l.length ≤ 1) :
    pyGetNeg2 l = none := by
  rw [pyGetNeg2]
  apply List.getElem?_eq_none
  simpa using h

/-- A capture statement whose neuron already has a recorded pair keeps it. -/
theorem spikeCapture_stay (d : List (ℕ × List (ℚ × ℚ))) (oid : ℕ)
    (p : ℚ × ℚ) (f : ℚ) : spikeCapture d oid (some p) f = .ok (some p) := by
  unfold spikeCapture
  rw [if_neg (fun hc => Option.some_ne_none p hc.1)]

/-- A capture statement whose neuron did not fire keeps the recorded pair. -/
theorem spikeCapture_not_fired (d : List (ℕ × List (ℚ × ℚ))) (oid : ℕ)
    (rec : Option (ℚ × ℚ)) (f : ℚ) (hf : ¬ 0 < f) :
    spikeCapture d oid rec f = .ok rec := by
  unfold spikeCapture
  rw [if_neg (fun hc => hf hc.2)]

/-- A first firing with an available look-back sample records that sample. -/
theorem spikeCapture_fire (d : List (ℕ × List (ℚ × ℚ))) (oid : ℕ) (f : ℚ)
    (l : List (ℚ × ℚ)) (q : ℚ × ℚ) (hf : 0 < f)
    (hd : dictGet d oid = some l) (hq : pyGetNeg2 l = some q) :
    spikeCapture d oid none f = .ok (some q) := by
  unfold spikeCapture
  rw [if_pos ⟨rfl, hf⟩, hd]
  simp [traceLookback, hq, capResult]

/-- A first firing is an error when every trace is still shorter than two
samples (also covering an output id that is not a dict key). -/
theorem spikeCapture_error_of_short (d : List (ℕ × List (ℚ × ℚ))) (oid : ℕ)
    (f : ℚ) (hf : 0 < f) (hshort : ∀ q ∈ d, q.2.length ≤ 1) :
    spikeCapture d oid none f = .error () := by
  unfold spikeCapture
  rw [if_pos ⟨rfl, hf⟩]
  cases hd : dictGet d oid with
  | none => simp [traceLookback]
  | some l =>
    have hlen : l.length ≤ 1 := by
      unfold dictGet at hd
      obtain ⟨q, hq, rfl⟩ := Option.map_eq_some'.mp hd
      exact hshort q (List.mem_of_find?_eq_some hq)
    simp [traceLookback, pyGetNeg2_eq_none l hlen, capResult]

/-- A successful loop iteration never erases an already recorded first-spike
pair. -/
theorem trialStep_rec_frozen {σ : Type} (N : SpikingNet σ) (j : ℕ)
    (st st₂ : TrialState σ) (h : trialStep N j st = .ok st₂) :
    (∀ p, st.rec0 = some p → st₂.rec0 = some p) ∧
    (∀ p, st.rec1 = some p → st₂.rec1 = some p) := by
  obtain ⟨r0, r1, h0, h1, rfl⟩ := (trialStep_ok_iff N j st st₂).mp h
  constructor
  · intro p hp
    rw [hp, spikeCapture_stay] at h0
    cases h0
    rfl
  · intro p hp
    rw [hp, spikeCapture_stay] at h1
    cases h1
    rfl

/-- Recorded first-spike pairs survive any number of further successful loop
iterations. -/
theorem runSteps_rec_frozen {σ : Type} (N : SpikingNet σ) (st0 : TrialState σ)
    (k k' : ℕ) (hk : k ≤ k') : ∀ st st' : TrialState σ,
    runSteps N st0 k = .ok st → runSteps N st0 k' = .ok st' →
    (∀ p, st.rec0 = some p → st'.rec0 = some p) ∧
    (∀ p, st.rec1 = some p → st'.rec1 = some p) := by
  induction k' with
  | zero =>
    intro st st' h h'
    have hz : k = 0 := Nat.le_zero.mp hk
    subst hz
    rw [h] at h'
    cases h'
    exact ⟨fun p hp => hp, fun p hp => hp⟩
  | succ k' ih =>
    intro st st' h h'
    rcases Nat.lt_or_ge k (k' + 1) with hlt | hge
    · have hk2 : k ≤ k' := Nat.lt_succ_iff.mp hlt
      rw [runSteps] at h'
      cases hmid : runSteps N st0 k' with
      | error e => rw [hmid] at h'; cases h'
      | ok stm =>
        rw [hmid] at h'
        obtain ⟨f0, f1⟩ := ih hk2 st stm h hmid
        obtain ⟨g0, g1⟩ := trialStep_rec_frozen N k' stm st' h'
        exact ⟨fun p hp => g0 p (f0 p hp), fun p hp => g1 p (f1 p hp)⟩
    · have heq : k = k' + 1 := le_antisymm hk hge
      subst heq
      rw [h] at h'
      cases h'
      exact ⟨fun p hp => hp, fun p hp => hp⟩

/-- C6: once an output neuron's first spike has been recorded within a trial,
the step loop leaves its recorded `(t, v)` pair unchanged for the rest of the
trial, whatever the neuron does later. -/
theorem first_spike_single_capture {σ : Type} (N : SpikingNet σ)
    (inp : ℕ × ℕ) (s : σ) (k k' : ℕ) (hkk : k ≤ k')
    (st st' : TrialState σ) (p : ℚ × ℚ)
    (h : runSteps N (initTrial N inp s) k = .ok st)
    (h' : runSteps N (initTrial N inp s) k' = .ok st') :
    (st.rec0 = some p → st'.rec0 = some p) ∧
    (st.rec1 = some p → st'.rec1 = some p) := by
  obtain ⟨f0, f1⟩ := runSteps_rec_frozen N (initTrial N inp s) k k' hkk st st' h h'
  exact ⟨f0 p, f1 p⟩

/-- C4: when an output neuron's first firing is detected at step `j ≥ 1`, the
recorded pair is the sample of step `j-1`: time `(j-1)*dt` and the membrane
potential as sampled at step `j-1` — a look-back of one sample. -/
theorem first_spike_lookback {σ : Type} (N : SpikingNet σ) (inp : ℕ × ℕ)
    (s : σ) (j : ℕ) (st st₂ : TrialState σ) (hj : 1 ≤ j)
    (hrun : runSteps N (initTrial N inp s) j = .ok st)
    (hrun2 : runSteps N (initTrial N inp s) (j + 1) = .ok st₂) :
    (N.out0 ∈ N.neuronIds → st.rec0 = none →
      0 < (N.advance dt st.net).2.1 →
      st₂.rec0 = some (dt * ((j - 1 : ℕ) : ℚ),
        N.potential (netIter N (initNet N inp s) j) N.out0)) ∧
    (N.out1 ∈ N.neuronIds → st.rec1 = none →
      0 < (N.advance dt st.net).2.2 →
      st₂.rec1 = some (dt * ((j - 1 : ℕ) : ℚ),
        N.potential (netIter N (initNet N inp s) j) N.out1)) := by
  obtain ⟨m, rfl⟩ : ∃ m, j = m + 1 := ⟨j - 1, (Nat.succ_pred_eq_of_pos hj).symm⟩
  rw [runSteps, hrun] at hrun2
  obtain ⟨hnet, hdata⟩ := runSteps_ok_trace N inp s (m + 1) st hrun
  have hsd : stepData N (m + 1) st = N.neuronIds.map (fun i =>
      (i, (List.range (m + 2)).map (fun r : ℕ =>
        (dt * (r : ℚ), N.potential (netIter N (initNet N inp s) (r + 1)) i)))) := by
    unfold stepData
    rw [hdata, List.map_map]
    refine congrArg (fun f => List.map f N.neuronIds) ?_
    funext i
    simp [Function.comp, List.range_succ, hnet, netIter]
  obtain ⟨r0, r1, h0, h1, rfl⟩ := (trialStep_ok_iff N (m + 1) st st₂).mp hrun2
  constructor
  · intro hmem hrec hfire
    rw [hrec] at h0
    rw [spikeCapture_fire _ _ _ _ _ hfire
      (by rw [hsd, dictGet_map, if_pos hmem]) (pyGetNeg2_range_map _ m)] at h0
    cases h0
    simp
  · intro hmem hrec hfire
    rw [hrec] at h1
    rw [spikeCapture_fire _ _ _ _ _ hfire
      (by rw [hsd, dictGet_map, if_pos hmem]) (pyGetNeg2_range_map _ m)] at h1
    cases h1
    simp

/-- C7: the step loop of one trial runs exactly
`num_steps = floor(max_time/dt) = 200` iterations of `net.advance(dt)`
(termination is inherent in the bounded loop), and the trace records step `j`
at simulated time `t = j*dt`. -/
theorem trial_step_count {σ : Type} (N : SpikingNet σ) (inp : ℕ × ℕ) (s : σ)
    (st : TrialState σ) (h : runTrial N inp s = .ok st) :
    num_steps = 200 ∧
    st.net = netIter N (initNet N inp s) 200 ∧
    ∀ pr ∈ st.data, pr.2.map Prod.fst =
      (List.range 200).map (fun j : ℕ => dt * (j : ℚ)) := by
  have hn : num_steps = 200 := num_steps_eq
  have htr := runSteps_ok_trace N inp s num_steps st h
  rw [hn] at htr
  obtain ⟨h1, h2⟩ := htr
  refine ⟨hn, h1, ?_⟩
  intro pr hpr
  rw [h2] at hpr
  obtain ⟨i, hi, rfl⟩ := List.mem_map.mp hpr
  simp [List.map_map, Function.comp]

/-- The network state handed to the trial after the given prefix of
`(inputData, outputData)` pairs: the state threading of `simulate`'s trial
loop (the same network object is reused, each trial starting from the state
the previous trial left behind). -/
def trialsNet {σ : Type} (N : SpikingNet σ) : σ → List ((ℕ × ℕ) × ℚ) → Except Unit σ
  | s, [] => .ok s
  | s, (inp, _) :: rest =>
    match runTrial N inp s with
    | .error e => .error e
    | .ok st => trialsNet N st.net rest

/-- C10: if an output neuron fires at the very first simulation step of a
trial — any trial input `inp`, from any network state `s` the trial loop
hands to that trial — the one-sample look-back hits a one-sample trace, so
the trial aborts with the embedded `IndexError`, and so does `simulate`
whenever the preceding trials completed and left the network in state `s`,
instead of recording a `(t, v)` pair and returning a result. -/
theorem first_step_fire_aborts {σ : Type} (N : SpikingNet σ) (inp : ℕ × ℕ)
    (s : σ)
    (hfire : 0 < (N.advance dt (initNet N inp s)).2.1 ∨
             0 < (N.advance dt (initNet N inp s)).2.2) :
    runTrial N inp s = .error () ∧
    ∀ (s₀ : σ) (acc : ℚ) (pre rest : List ((ℕ × ℕ) × ℚ)) (expected : ℚ),
      trialsNet N s₀ pre = .ok s →
      simulateFrom N acc s₀ (pre ++ (inp, expected) :: rest) = .error () ∧
      (xor_inputs.zip xor_outputs = pre ++ (inp, expected) :: rest →
        simulate N s₀ = .error ()) := by
  have hshort : ∀ q ∈ stepData N 0 (initTrial N inp s), q.2.length ≤ 1 := by
    intro q hq
    unfold stepData initTrial at hq
    rw [List.map_map] at hq
    obtain ⟨i, hi, rfl⟩ := List.mem_map.mp hq
    simp
  have hstep : trialStep N 0 (initTrial N inp s) = .error () := by
    unfold trialStep
    simp only [initTrial, initNet]
    simp only [initTrial, initNet] at hshort
    by_cases h0 : 0 < (N.advance dt (N.setInputs inp (N.reset s))).2.1
    · rw [spikeCapture_error_of_short _ _ _ h0 hshort]
    · have h1 : 0 < (N.advance dt (N.setInputs inp (N.reset s))).2.2 := by
        rcases hfire with hf | hf
        · exact absurd hf h0
        · exact hf
      rw [spikeCapture_not_fired _ _ _ _ h0,
        spikeCapture_error_of_short _ _ _ h1 hshort]
  have habort : ∀ k, 1 ≤ k →
      runSteps N (initTrial N inp s) k = .error () := by
    intro k hk
    induction k with
    | zero => exact absurd hk (by norm_num)
    | succ k ih =>
      rcases Nat.eq_zero_or_pos k with rfl | hkpos
      · exact hstep
      · rw [runSteps, ih hkpos]
  have htrial : runTrial N inp s = .error () :=
    habort num_steps (by rw [num_steps_eq]; norm_num)
  refine ⟨htrial, ?_⟩
  have hmain : ∀ (pre : List ((ℕ × ℕ) × ℚ)) (s₁ : σ) (acc : ℚ)
      (rest : List ((ℕ × ℕ) × ℚ)) (expected : ℚ),
      trialsNet N s₁ pre = .ok s →
      simulateFrom N acc s₁ (pre ++ (inp, expected) :: rest) = .error () := by
    intro pre
    induction pre with
    | nil =>
      intro s₁ acc rest expected htr1
      have hs : s₁ = s := Except.ok.inj htr1
      subst hs
      show simulateFrom N acc s₁ ((inp, expected) :: rest) = .error ()
      rw [simulateFrom, htrial]
    | cons hd tl ih =>
      intro s₁ acc rest expected htr1
      obtain ⟨hinp, hex⟩ := hd
      cases hrt1 : runTrial N hinp s₁ with
      | error e =>
        rw [trialsNet, hrt1] at htr1
        simp at htr1
      | ok st1 =>
        rw [trialsNet, hrt1] at htr1
        have hrec := ih st1.net
          (acc + (compute_output (st1.rec0.map Prod.fst)
            (st1.rec1.map Prod.fst) - hex) ^ 2) rest expected htr1
        show simulateFrom N acc s₁
          ((hinp, hex) :: (tl ++ (inp, expected) :: rest)) = .error ()
        rw [simulateFrom, hrt1]
        simp [hrec]
  intro s₀ acc pre rest expected htr
  refine ⟨hmain pre s₀ acc rest expected htr, fun hlist => ?_⟩
  unfold simulate
  rw [hlist]
  exact hmain pre s₀ 0 rest expected htr

deriving instance DecidableEq for Except

/-- A network with no neurons whose outputs never fire: every trial times
out, so every response is the worst-case `-1.0`. -/
def neverNet : SpikingNet Unit :=
  ⟨[], 0, 1, fun _ => (), fun _ _ => (), fun _ _ => ((), (0, 0)), fun _ _ => 0⟩

/-- The `simulated` list produced by `simulate` on `neverNet`. -/
def neverRecs : List TrialResult :=
  [⟨(0, 0), 0, none, none, none, none, []⟩,
   ⟨(0, 1), 1, none, none, none, none, []⟩,
   ⟨(1, 0), 1, none, none, none, none, []⟩,
   ⟨(1, 1), 0, none, none, none, none, []⟩]

set_option maxRecDepth 10000 in
unseal Rat.mul Rat.inv Rat.add Rat.sub in
/-- C3 witness: on `neverNet` the four worst-case responses give total
squared error `(−1−0)² + (−1−1)² + (−1−1)² + (−1−0)² = 10` and the assigned
fitness `1 − 10 = −9` is negative, unclamped. -/
theorem simulate_sum_square_error_witness :
    (10 : ℚ) = (neverRecs.map
      (fun r => (compute_output r.t0 r.t1 - r.outputData) ^ 2)).sum ∧
    neverRecs.map TrialResult.inputData = xor_inputs ∧
    neverRecs.map TrialResult.outputData = xor_outputs ∧
    eval_fitness neverNet () = .ok (1 - 10) :=
  simulate_sum_square_error neverNet () 10 neverRecs (by decide)

/-- C8 witness: determinism applied at the concrete network `neverNet`. -/
theorem simulate_deterministic_witness :
    simulate neverNet () = simulate neverNet () :=
  simulate_deterministic neverNet neverNet () () rfl rfl

/-- A counting network (state = number of advances) that never fires; its
membrane potential reports the counter. -/
def stepNet : SpikingNet ℕ :=
  ⟨[0], 0, 1, fun _ => 0, fun _ s => s, fun _ s => (s + 1, (0, 0)),
   fun s _ => (s : ℚ)⟩

/-- The trial state after a full trial of `stepNet`. -/
def stepSt : TrialState ℕ :=
  ⟨200, [(0, (List.range 200).map (fun m : ℕ => (dt * (m : ℚ), ((m : ℚ) + 1))))],
   none, none⟩

set_option maxRecDepth 10000 in
unseal Rat.mul Rat.inv Rat.add Rat.sub in
/-- C7 witness: a full trial of `stepNet` runs exactly 200 advances and its
trace carries the times `j*dt`. -/
theorem trial_step_count_witness :
    num_steps = 200 ∧
    stepSt.net = netIter stepNet (initNet stepNet (0, 0) 0) 200 ∧
    ∀ pr ∈ stepSt.data, pr.2.map Prod.fst =
      (List.range 200).map (fun j : ℕ => dt * (j : ℚ)) :=
  trial_step_count stepNet (0, 0) 0 stepSt (by decide)

/-- A counting network whose both outputs fire exactly once, at step 3. -/
def fireNet2 : SpikingNet ℕ :=
  ⟨[0, 1], 0, 1, fun _ => 0, fun _ s => s,
   fun _ s => (s + 1, (if s = 3 then 1 else 0, if s = 3 then 1 else 0)),
   fun s _ => (s : ℚ)⟩

/-- Shared trace of `fireNet2` after 3 steps. -/
def fireTr3 : List (ℚ × ℚ) := [(0, 1), (1/4, 2), (1/2, 3)]

/-- Shared trace of `fireNet2` after 4 steps. -/
def fireTr4 : List (ℚ × ℚ) := [(0, 1), (1/4, 2), (1/2, 3), (3/4, 4)]

/-- `fireNet2` trial state after 3 steps: nothing recorded yet. -/
def fireSt3 : TrialState ℕ := ⟨3, [(0, fireTr3), (1, fireTr3)], none, none⟩

/-- `fireNet2` trial state after 4 steps: both first spikes recorded with
the look-back sample of step 2. -/
def fireSt4 : TrialState ℕ :=
  ⟨4, [(0, fireTr4), (1, fireTr4)], some (1/2, 3), some (1/2, 3)⟩

unseal Rat.mul Rat.inv Rat.add Rat.sub in
/-- C4 witness: `fireNet2` fires both outputs at step `j = 3`; the recorded
pairs are the step-2 samples `(2*dt, v)` — the one-sample look-back. -/
theorem first_spike_lookback_witness :
    fireSt4.rec0 = some (dt * ((3 - 1 : ℕ) : ℚ),
      fireNet2.potential (netIter fireNet2 (initNet fireNet2 (0, 0) 0) 3)
        fireNet2.out0) ∧
    fireSt4.rec1 = some (dt * ((3 - 1 : ℕ) : ℚ),
      fireNet2.potential (netIter fireNet2 (initNet fireNet2 (0, 0) 0) 3)
        fireNet2.out1) := by
  have h := first_spike_lookback fireNet2 (0, 0) 0 3 fireSt3 fireSt4
    (by norm_num) (by decide) (by decide)
  exact ⟨h.1 (by decide) rfl (by decide), h.2 (by decide) rfl (by decide)⟩

/-- A counting network whose output 0 fires at step 3 and again at step 5. -/
def fireNetTwice : SpikingNet ℕ :=
  ⟨[0, 1], 0, 1, fun _ => 0, fun _ s => s,
   fun _ s => (s + 1, (if s = 3 ∨ s = 5 then 1 else 0, 0)),
   fun s _ => (s : ℚ)⟩

/-- Shared trace of `fireNetTwice` after 4 steps. -/
def twiceTr4 : List (ℚ × ℚ) := [(0, 1), (1/4, 2), (1/2, 3), (3/4, 4)]

/-- Shared trace of `fireNetTwice` after 6 steps. -/
def twiceTr6 : List (ℚ × ℚ) :=
  [(0, 1), (1/4, 2), (1/2, 3), (3/4, 4), (1, 5), (5/4, 6)]

/-- `fireNetTwice` trial state after 4 steps: first spike recorded. -/
def twiceSt4 : TrialState ℕ :=
  ⟨4, [(0, twiceTr4), (1, twiceTr4)], some (1/2, 3), none⟩

/-- `fireNetTwice` trial state after 6 steps: the second firing at step 5
left the recorded pair unchanged. -/
def twiceSt6 : TrialState ℕ :=
  ⟨6, [(0, twiceTr6), (1, twiceTr6)], some (1/2, 3), none⟩

unseal Rat.mul Rat.inv Rat.add Rat.sub in
/-- C6 witness: `fireNetTwice` fires again at step 5, yet the pair recorded
at step 3 survives to step 6 unchanged. -/
theorem first_spike_single_capture_witness :
    twiceSt6.rec0 = some (1/2, 3) :=
  (first_spike_single_capture fireNetTwice (0, 0) 0 4 6 (by norm_num)
    twiceSt4 twiceSt6 (1/2, 3) (by decide) (by decide)).1 rfl

/-- A counting network that fires output 0 at the very first step of the
second trial only: `set_inputs` parks the counter at 1000 exactly for the
second truth-table input `(0, 1)`, and the neuron fires when advancing from
1000.  The first trial (input `(0, 0)`) runs its full 200 steps quietly. -/
def lateFireNet : SpikingNet ℕ :=
  ⟨[0, 1], 0, 1, fun s => s, fun inp _ => if inp = (0, 1) then 1000 else 0,
   fun _ s => (s + 1, (if s = 1000 then 1 else 0, 0)), fun s _ => (s : ℚ)⟩

set_option maxRecDepth 10000 in
unseal Rat.mul Rat.inv Rat.add Rat.sub in
/-- C10 witness: on `lateFireNet` the first trial completes, leaving the
counter at 200; the second trial (input `(0, 1)`) fires at its step 0, and
both that trial and the whole `simulate` run abort with the embedded
`IndexError`. -/
theorem first_step_fire_aborts_witness :
    runTrial lateFireNet (0, 1) 200 = .error () ∧
    simulate lateFireNet 0 = .error () := by
  have h := first_step_fire_aborts lateFireNet (0, 1) 200 (Or.inl (by decide))
  refine ⟨h.1, ?_⟩
  have h2 := h.2 0 0 [((0, 0), 0)] [((1, 0), 1), ((1, 1), 0)] 1 (by decide)
  exact h2.2 (by decide)

end EvolveSpiking
